import Mathlib

/-!
Verification of the AsyncNN core: a shallow embedding of
`src/core/async_neuron.py`, `src/core/synapse.py` and `src/core/brain.py`.

Modelling conventions:
* Python floats are modelled as real numbers.
* Python dicts are modelled as association lists with first-match lookup,
  in-place update of an existing key, and append of a new key at the end
  (insertion order), matching CPython dict semantics.
* A Python `KeyError` is modelled by returning `none` / `Except.error ()`.
* `float('inf')` as a threshold is modelled by `Option ℝ` with `none` standing
  for the unreachable (infinite) threshold: a finite potential never reaches it.
* `asyncio` suspension (`await asyncio.sleep(...)`) has no effect on the state
  a coroutine mutates after it resumes, so the state transition of each
  delivery is embedded as a pure function.
-/

/-! ### Association-list model of Python dicts -/

section DictModel

variable {α β γ : Type} [DecidableEq α]

def dlookup : List (α × β) → α → Option β
  | [], _ => none
  | (k, v) :: rest, a => if a = k then some v else dlookup rest a

def dinsert : List (α × β) → α → β → List (α × β)
  | [], a, b => [(a, b)]
  | (k, v) :: rest, a, b => if a = k then (k, b) :: rest else (k, v) :: dinsert rest a b

def derase : List (α × β) → α → List (α × β)
  | [], _ => []
  | (k, v) :: rest, a => if k = a then derase rest a else (k, v) :: derase rest a

/-- Model of `d.setdefault(k, []).append(b)` on a dict of lists. -/
def setdefaultAppend : List (α × List β) → α → β → List (α × List β)
  | [], a, b => [(a, [b])]
  | (k, vs) :: rest, a, b =>
    if a = k then (k, vs ++ [b]) :: rest else (k, vs) :: setdefaultAppend rest a b

end DictModel

/-! ### `src/core/async_neuron.py` -/

/-- State of `AsyncNeuron`; field names follow the source. -/
structure AsyncNeuron where
  id : ℕ
  potential : ℝ
  rpotential : ℝ
  threshold : ℝ
  decay : ℝ
  psdelay : ℝ
  arperiod : ℝ
  rrperiod : ℝ
  last_input_time : ℝ

/-- `AsyncNeuron.get_current_potential`. -/
noncomputable def getCurrentPotential (n : AsyncNeuron) (current_time : ℝ) : ℝ :=
  n.rpotential +
    (n.potential - n.rpotential) * Real.exp (-n.decay * (current_time - n.last_input_time))

/-- `AsyncNeuron._get_dynamic_threshold`; `none` models the `float('inf')`
returned inside the absolute refractory window. -/
noncomputable def getDynamicThreshold (n : AsyncNeuron) (current_time : ℝ) : Option ℝ :=
  if current_time - n.last_input_time < n.arperiod then
    none
  else if current_time - n.last_input_time < n.arperiod + n.rrperiod then
    some (n.threshold +
      n.threshold * (1 - (current_time - n.last_input_time - n.arperiod) / n.rrperiod))
  else
    some n.threshold

/-- `AsyncNeuron.receive_input`: decay to `current_time`, advance the anchor,
add the input, then compare against the dynamic threshold evaluated at the
already-advanced anchor (exactly the source's statement order). A `none`
threshold (infinity) can never be reached by the finite potential. -/
noncomputable def receiveInput (n : AsyncNeuron) (current_time input_strength : ℝ) :
    AsyncNeuron × Bool :=
  let old_potential := getCurrentPotential n current_time
  let n1 : AsyncNeuron := { n with potential := old_potential, last_input_time := current_time }
  let n2 : AsyncNeuron := { n1 with potential := n1.potential + input_strength }
  match getDynamicThreshold n2 current_time with
  | none => (n2, false)
  | some threshold_now =>
    if threshold_now ≤ n2.potential then ({ n2 with potential := n2.rpotential }, true)
    else (n2, false)

/-! ### `src/core/synapse.py` -/

/-- Record stored by `SynapseMap`; in the source the id is drawn from a
process-wide counter when the `Synapse` object is constructed, so the record
carries its id. -/
structure Synapse where
  id : ℕ
  pre_id : ℕ
  post_id : ℕ
  weight : ℝ
  delay : ℝ

/-- State of `SynapseMap`: synapse records by id, outgoing ("pre") synapse-id
lists by source neuron, incoming ("post") synapse-id lists by target neuron. -/
structure SynapseMap where
  synapses : List (ℕ × Synapse)
  pre_synapses : List (ℕ × List ℕ)
  post_synapses : List (ℕ × List ℕ)

/-- `SynapseMap.create_synapse`. The source's guard
`pre_id is not None and post_id is not None` is vacuously true for the
int-typed ids, so the body runs unconditionally: the record is stored and the
id appended to both endpoint lists, with `setdefault` creating absent lists. -/
def SynapseMap.create_synapse (m : SynapseMap) (s : Synapse) : SynapseMap :=
  { synapses := dinsert m.synapses s.id s
    pre_synapses := setdefaultAppend m.pre_synapses s.pre_id s.id
    post_synapses := setdefaultAppend m.post_synapses s.post_id s.id }

/-- `SynapseMap.disconnect_neuron`. `none` models the `KeyError` raised by the
unguarded `self._pre_synapses[neuron_id]` / `self._post_synapses[neuron_id]`
reads. The source's `if syn in self._synapses` guard before `del` is the
identity of `derase` on an absent key. The `delete = true` branch reproduces
the source verbatim, including the second deletion hitting `_pre_synapses`
instead of `_post_synapses`. -/
def SynapseMap.disconnect_neuron (m : SynapseMap) (neuron_id : ℕ) (delete : Bool) :
    Option SynapseMap :=
  match dlookup m.pre_synapses neuron_id, dlookup m.post_synapses neuron_id with
  | some pre_syns, some post_syns =>
    let synapses1 := (pre_syns ++ post_syns).foldl (fun acc syn => derase acc syn) m.synapses
    let m1 : SynapseMap := { m with synapses := synapses1 }
    let m2 : SynapseMap :=
      if (dlookup m1.pre_synapses neuron_id).isSome then
        if delete then { m1 with pre_synapses := derase m1.pre_synapses neuron_id }
        else { m1 with pre_synapses := dinsert m1.pre_synapses neuron_id [] }
      else m1
    let m3 : SynapseMap :=
      if (dlookup m2.post_synapses neuron_id).isSome then
        if delete then { m2 with pre_synapses := derase m2.pre_synapses neuron_id }
        else { m2 with post_synapses := dinsert m2.post_synapses neuron_id [] }
      else m2
    some m3
  | _, _ => none

/-- `SynapseMap.add_neuron`. `none` models the `KeyError` raised by the
unguarded `self._pre_synapses[neuron_id]` / `self._post_synapses[neuron_id]`
truthiness tests; an empty list is falsy, so a registered id with an empty
list is re-assigned an empty list. -/
def SynapseMap.add_neuron (m : SynapseMap) (neuron_id : ℕ) : Option SynapseMap :=
  match dlookup m.pre_synapses neuron_id with
  | none => none
  | some pre_list =>
    let m1 : SynapseMap :=
      if pre_list.isEmpty then { m with pre_synapses := dinsert m.pre_synapses neuron_id [] }
      else m
    match dlookup m1.post_synapses neuron_id with
    | none => none
    | some post_list =>
      some (if post_list.isEmpty then
        { m1 with post_synapses := dinsert m1.post_synapses neuron_id [] }
      else m1)

/-- A two-neuron map holding the single synapse `0 → 1` with id `0`, as built
by registering both neurons and creating one synapse. -/
def mapC2 : SynapseMap :=
  { synapses := [(0, Synapse.mk 0 0 1 1 0)]
    pre_synapses := [(0, [0]), (1, [])]
    post_synapses := [(0, []), (1, [0])] }

/-! ### `src/core/brain.py` -/

/-- `brain.py`'s `Synapse` dataclass (a different class from `synapse.py`'s):
a directed edge stored in the source neuron's connection list. -/
structure BSynapse where
  target_id : ℕ
  weight : ℝ
  delay : ℝ

/-- `brain.py`'s `Input` dataclass: a stimulus event for a neuron. -/
structure Input where
  neuron_id : ℕ
  strength : ℝ

/-- State of `Brain`; sets are modelled as lists of ids, dicts as association
lists. -/
structure Brain where
  time : ℝ
  neurons : List ℕ
  neurons_by_id : List (ℕ × AsyncNeuron)
  connections : List (ℕ × List BSynapse)
  input_neurons : List ℕ
  output_neurons : List ℕ
  input_buffer : List (ℝ × List Input)

/-- Bucket of pending events at a timestamp (empty for an absent key). -/
noncomputable def bucket (buf : List (ℝ × List Input)) (t : ℝ) : List Input :=
  (dlookup buf t).getD []

/-- `Brain.add_input`: append to the timestamp's bucket, creating it if
absent; there is no check that the event's target neuron exists. -/
noncomputable def addInput (b : Brain) (timestamp : ℝ) (inp : Input) : Brain :=
  { b with input_buffer := setdefaultAppend b.input_buffer timestamp inp }

/-- Smallest key of the event buffer (`min(self.input_buffer.keys())`); only
meaningful for a nonempty buffer, matching the source's emptiness guard. -/
noncomputable def minKey (buf : List (ℝ × List Input)) : ℝ :=
  match buf with
  | [] => 0
  | (t, _) :: rest => rest.foldl (fun m p => min m p.1) t

/-- Loop of `Brain._propagate_from`: walk a synapse list, scheduling
`Input(syn.target_id, syn.weight)` at `time + syn.delay` for each; also
returns the scheduled (arrival-time, event) pairs for bookkeeping. -/
noncomputable def enqueueAll (time : ℝ) : Brain → List BSynapse → Brain × List (ℝ × Input)
  | b, [] => (b, [])
  | b, syn :: rest =>
    let inp : Input := { neuron_id := syn.target_id, strength := syn.weight }
    let r := enqueueAll time (addInput b (time + syn.delay) inp) rest
    (r.1, (time + syn.delay, inp) :: r.2)

/-- `Brain._propagate_from`. -/
noncomputable def propagateFrom (b : Brain) (neuron_id : ℕ) : Brain × List (ℝ × Input) :=
  enqueueAll b.time b ((dlookup b.connections neuron_id).getD [])

/-- `Brain._process_input`: the raw `self.neurons_by_id[neuron_id]` lookup is
the only failure point (`KeyError`, modelled as `Except.error ()`); the neuron
is updated in place and, on a fire, its outgoing synapses are walked. -/
noncomputable def processInput (b : Brain) (inp : Input) :
    Except Unit (Brain × List (ℝ × Input)) :=
  match dlookup b.neurons_by_id inp.neuron_id with
  | none => .error ()
  | some neuron =>
    let r := receiveInput neuron b.time inp.strength
    let b1 : Brain := { b with neurons_by_id := dinsert b.neurons_by_id inp.neuron_id r.1 }
    if r.2 then .ok (propagateFrom b1 r.1.id) else .ok (b1, [])

/-- Sequential elaboration of the `asyncio.gather` batch: deliver each popped
event in turn, collecting the delivered events and every newly scheduled
(arrival-time, event) pair. Coroutine interleaving affects only the order of
per-neuron state updates and of bucket appends, not which events get
delivered or scheduled, which is what the claims below are about. -/
noncomputable def processEvents :
    Brain → List Input → Except Unit (Brain × List Input × List (ℝ × Input))
  | b, [] => .ok (b, [], [])
  | b, inp :: rest =>
    match processInput b inp with
    | .error e => .error e
    | .ok (b1, ps1) =>
      match processEvents b1 rest with
      | .error e => .error e
      | .ok (b2, ds, ps) => .ok (b2, inp :: ds, ps1 ++ ps)

/-- `Brain.propagate` (one scheduler step): no-op on an empty buffer;
otherwise advance `time` to the minimum pending timestamp, remove that bucket
from the buffer before any delivery happens, and deliver the removed events.
Returns the new state, the delivered events, and the newly scheduled
(arrival-time, event) pairs. -/
noncomputable def propagate (b : Brain) :
    Except Unit (Brain × List Input × List (ℝ × Input)) :=
  if b.input_buffer.isEmpty then .ok (b, [], [])
  else
    let t := minKey b.input_buffer
    let events := bucket b.input_buffer t
    let b1 : Brain := { b with time := t, input_buffer := derase b.input_buffer t }
    processEvents b1 events

/-- Iterated `propagate`, accumulating all delivered events. -/
noncomputable def runSteps : ℕ → Brain → Except Unit (Brain × List Input)
  | 0, b => .ok (b, [])
  | Nat.succ k, b =>
    match propagate b with
    | .error e => .error e
    | .ok (b1, ds, _) =>
      match runSteps k b1 with
      | .error e => .error e
      | .ok (b2, ds2) => .ok (b2, ds ++ ds2)

/-- `Brain.disconnect_neuron`: drop the neuron's own connection entry, then
filter every remaining list for synapses targeting it. -/
def disconnectNeuron (b : Brain) (neuron_id : ℕ) : Brain :=
  let conns1 := derase b.connections neuron_id
  { b with connections :=
      conns1.map (fun p => (p.1, p.2.filter (fun syn => syn.target_id ≠ neuron_id))) }

/-- `Brain.delete_neuron`: for an existing neuron, drop it from the
input/output sets, disconnect it, purge its events from every timestamp
bucket (possibly leaving empty buckets behind, as the source does), and
remove its record and registration. -/
def deleteNeuron (b : Brain) (neuron_id : ℕ) : Brain :=
  if neuron_id ∈ b.neurons then
    let b0 : Brain := { b with
      input_neurons := b.input_neurons.filter (fun k => k ≠ neuron_id)
      output_neurons := b.output_neurons.filter (fun k => k ≠ neuron_id) }
    let b1 := disconnectNeuron b0 neuron_id
    let b2 : Brain := { b1 with
      input_buffer := b1.input_buffer.map
        (fun p => (p.1, p.2.filter (fun i => i.neuron_id ≠ neuron_id))) }
    { b2 with
      neurons_by_id := derase b2.neurons_by_id neuron_id
      neurons := b2.neurons.filter (fun k => k ≠ neuron_id) }
  else b

/-- Well-formedness of a brain: every pending event and every synapse targets
a neuron that has a record. -/
def WF (b : Brain) : Prop :=
  (∀ t i, i ∈ bucket b.input_buffer t →
    (dlookup b.neurons_by_id i.neuron_id).isSome = true) ∧
  (∀ k s, s ∈ (dlookup b.connections k).getD [] →
    (dlookup b.neurons_by_id s.target_id).isSome = true)

/-- Absence of any reference to a neuron id: no record, no pending event
addressed to it, no synapse targeting it. -/
def NoRef (b : Brain) (neuron_id : ℕ) : Prop :=
  (dlookup b.neurons_by_id neuron_id).isSome = false ∧
  (∀ t i, i ∈ bucket b.input_buffer t → i.neuron_id ≠ neuron_id) ∧
  (∀ k s, s ∈ (dlookup b.connections k).getD [] → s.target_id ≠ neuron_id)

/-! ### Concrete witness states -/

def neuronW : AsyncNeuron := AsyncNeuron.mk 7 0 0 1 1 0 0 0 0

def brainW5 : Brain := Brain.mk 0 [] [] [] [] [] [(0, [])]

def brainW5x : Brain := Brain.mk 0 [] [] [] [] [] []

def brainW6 : Brain := Brain.mk 0 [7] [(7, neuronW)] [(7, [])] [] [] []

def brainW10 : Brain := Brain.mk 0 [] [] [] [] [] [(0, [Input.mk 5 1])]

/-! ### Association-list lemmas -/

section DictLemmas

variable {α β γ : Type} [DecidableEq α]

theorem dlookup_dinsert (l : List (α × β)) (a : α) (b : β) (a' : α) :
    dlookup (dinsert l a b) a' = if a' = a then some b else dlookup l a' := by
  induction l with
  | nil => simp [dinsert, dlookup]
  | cons hd tl ih =>
    obtain ⟨k, v⟩ := hd
    by_cases hak : a = k
    · subst hak
      by_cases h1 : a' = a <;> simp [dinsert, dlookup, h1]
    · by_cases h1 : a' = k
      · have h2 : ¬a' = a := fun h => hak (h.symm.trans h1)
        have h3 : ¬k = a := fun h => hak h.symm
        subst h1
        simp [dinsert, dlookup, hak, h2, h3]
      · simp [dinsert, dlookup, hak, h1, ih]

theorem dlookup_derase (l : List (α × β)) (a a' : α) :
    dlookup (derase l a) a' = if a' = a then none else dlookup l a' := by
  induction l with
  | nil => simp [derase, dlookup]
  | cons hd tl ih =>
    obtain ⟨k, v⟩ := hd
    by_cases hka : k = a
    · subst hka
      by_cases h1 : a' = k
      · subst h1
        simp [derase, dlookup, ih]
      · simp [derase, dlookup, h1, ih]
    · by_cases h1 : a' = k
      · have h2 : ¬a' = a := fun h => hka (h1.symm.trans h)
        subst h1
        simp [derase, dlookup, hka, h2]
      · simp [derase, dlookup, hka, h1, ih]

theorem dlookup_setdefaultAppend (l : List (α × List β)) (a : α) (b : β) (a' : α) :
    dlookup (setdefaultAppend l a b) a' =
      if a' = a then some ((dlookup l a).getD [] ++ [b]) else dlookup l a' := by
  induction l with
  | nil => simp [setdefaultAppend, dlookup]
  | cons hd tl ih =>
    obtain ⟨k, vs⟩ := hd
    by_cases hak : a = k
    · subst hak
      by_cases h1 : a' = a <;> simp [setdefaultAppend, dlookup, h1]
    · by_cases h1 : a' = k
      · have h2 : ¬a' = a := fun h => hak (h.symm.trans h1)
        have h3 : ¬k = a := fun h => hak h.symm
        subst h1
        simp [setdefaultAppend, dlookup, hak, h2, h3]
      · simp [setdefaultAppend, dlookup, hak, h1, ih]

theorem dlookup_mapValues (f : β → γ) (l : List (α × β)) (a : α) :
    dlookup (l.map (fun p => (p.1, f p.2))) a = (dlookup l a).map f := by
  induction l with
  | nil => simp [dlookup]
  | cons hd tl ih =>
    obtain ⟨k, v⟩ := hd
    by_cases h1 : a = k
    · simp [dlookup, h1]
    · simp [dlookup, h1, ih]

end DictLemmas

/-! ### Claims about the neuron model -/

/-- C1: `receive_input` updates `last_input_time` to the current event's time
before `_get_dynamic_threshold` runs, so the elapsed time seen by the
refractory decision is zero; hence with a positive absolute refractory period
the threshold is infinite and the delivery never reports a fire. -/
theorem receive_input_never_fires_with_arperiod (n : AsyncNeuron) (t s : ℝ)
    (h : 0 < n.arperiod) : (receiveInput n t s).2 = false := by
  simp [receiveInput, getDynamicThreshold, sub_self, h]

theorem receive_input_never_fires_with_arperiod_witness :
    0 < (AsyncNeuron.mk 0 0 0 1 1 0 1 0 0).arperiod ∧
      (receiveInput (AsyncNeuron.mk 0 0 0 1 1 0 1 0 0) 0 5).2 = false :=
  ⟨by norm_num,
    receive_input_never_fires_with_arperiod (AsyncNeuron.mk 0 0 0 1 1 0 1 0 0) 0 5 (by norm_num)⟩

/-- C7: `get_current_potential` is a pure function of the state and the query
time (the embedding returns a value and leaves the state untouched) and
computes exactly
`resting_potential + (potential − resting_potential) · e^(−decay · (t − last_input_time))`. -/
theorem get_current_potential_formula (n : AsyncNeuron) (t : ℝ) :
    getCurrentPotential n t =
      n.rpotential +
        (n.potential - n.rpotential) * Real.exp (-n.decay * (t - n.last_input_time)) := rfl

/-- C8: with a positive decay rate and no intervening deliveries, the potential
at a later time lies between the potential at an earlier time and the resting
potential: it moves monotonically toward rest and never overshoots it. -/
theorem get_current_potential_monotone_toward_rest (n : AsyncNeuron) (t1 t2 : ℝ)
    (hd : 0 < n.decay) (h1 : n.last_input_time ≤ t1) (h12 : t1 ≤ t2) :
    min (getCurrentPotential n t1) n.rpotential ≤ getCurrentPotential n t2 ∧
      getCurrentPotential n t2 ≤ max (getCurrentPotential n t1) n.rpotential := by
  set c := n.potential - n.rpotential with hc
  have hexp : Real.exp (-n.decay * (t2 - n.last_input_time)) ≤
      Real.exp (-n.decay * (t1 - n.last_input_time)) := by
    apply Real.exp_le_exp.mpr
    nlinarith
  have hpos : 0 < Real.exp (-n.decay * (t2 - n.last_input_time)) := Real.exp_pos _
  have hpos1 : 0 < Real.exp (-n.decay * (t1 - n.last_input_time)) := Real.exp_pos _
  rcases le_total 0 c with hcpos | hcneg
  · constructor
    · refine le_trans (min_le_right _ _) ?_
      simp only [getCurrentPotential, ← hc]
      nlinarith
    · refine le_trans ?_ (le_max_left _ _)
      simp only [getCurrentPotential, ← hc]
      nlinarith
  · constructor
    · refine le_trans (min_le_left _ _) ?_
      simp only [getCurrentPotential, ← hc]
      nlinarith
    · refine le_trans ?_ (le_max_right _ _)
      simp only [getCurrentPotential, ← hc]
      nlinarith

theorem get_current_potential_monotone_toward_rest_witness :
    (0 < (AsyncNeuron.mk 0 1 0 1 1 0 0 0 0).decay ∧
        (AsyncNeuron.mk 0 1 0 1 1 0 0 0 0).last_input_time ≤ 0 ∧ (0 : ℝ) ≤ 1) ∧
      (min (getCurrentPotential (AsyncNeuron.mk 0 1 0 1 1 0 0 0 0) 0)
          (AsyncNeuron.mk 0 1 0 1 1 0 0 0 0).rpotential ≤
            getCurrentPotential (AsyncNeuron.mk 0 1 0 1 1 0 0 0 0) 1 ∧
        getCurrentPotential (AsyncNeuron.mk 0 1 0 1 1 0 0 0 0) 1 ≤
          max (getCurrentPotential (AsyncNeuron.mk 0 1 0 1 1 0 0 0 0) 0)
            (AsyncNeuron.mk 0 1 0 1 1 0 0 0 0).rpotential) :=
  ⟨⟨by norm_num, by norm_num, by norm_num⟩,
    get_current_potential_monotone_toward_rest (AsyncNeuron.mk 0 1 0 1 1 0 0 0 0) 0 1
      (by norm_num) (by norm_num) (by norm_num)⟩

/-- C9: with a zero relative refractory period the dynamic-threshold
computation never enters the branch containing the division by
`rrperiod`: at or past the absolute refractory period it falls through
directly to the baseline threshold, and the dividing branch's guard can only
hold when `rrperiod` is non-zero. -/
theorem dynamic_threshold_zero_rrperiod_baseline (n : AsyncNeuron) (t : ℝ)
    (hrr : n.rrperiod = 0) (har : n.arperiod ≤ t - n.last_input_time) :
    getDynamicThreshold n t = some n.threshold ∧
      ¬(t - n.last_input_time < n.arperiod + n.rrperiod) := by
  have h1 : ¬(t - n.last_input_time < n.arperiod) := not_lt.mpr har
  have h2 : ¬(t - n.last_input_time < n.arperiod + n.rrperiod) := by
    rw [hrr, add_zero]
    exact h1
  exact ⟨by simp [getDynamicThreshold, h1, h2], h2⟩

theorem dynamic_threshold_zero_rrperiod_baseline_witness :
    ((AsyncNeuron.mk 0 0 0 1 1 0 1 0 0).rrperiod = 0 ∧
        (AsyncNeuron.mk 0 0 0 1 1 0 1 0 0).arperiod ≤
          2 - (AsyncNeuron.mk 0 0 0 1 1 0 1 0 0).last_input_time) ∧
      (getDynamicThreshold (AsyncNeuron.mk 0 0 0 1 1 0 1 0 0) 2 =
          some (AsyncNeuron.mk 0 0 0 1 1 0 1 0 0).threshold ∧
        ¬(2 - (AsyncNeuron.mk 0 0 0 1 1 0 1 0 0).last_input_time <
            (AsyncNeuron.mk 0 0 0 1 1 0 1 0 0).arperiod +
              (AsyncNeuron.mk 0 0 0 1 1 0 1 0 0).rrperiod)) :=
  ⟨⟨rfl, by norm_num⟩,
    dynamic_threshold_zero_rrperiod_baseline (AsyncNeuron.mk 0 0 0 1 1 0 1 0 0) 2 rfl
      (by norm_num)⟩

/-! ### Claims about the synapse graph -/

/-- C2: the claim fails on the source. On the two-neuron map with the single
synapse `0 → 1` (id `0`), `disconnect_neuron 0` deletes the synapse record and
clears neuron `0`'s own lists, but leaves the now-dangling synapse id `0` in
neuron `1`'s incoming ("post") list: a stale synapse id remains in another
neuron's list, contradicting the claimed full cleanup. -/
theorem disconnect_neuron_leaves_stale_id :
    (Option.map
        (fun m => ((dlookup m.synapses 0).isSome,
          dlookup m.post_synapses 1, dlookup m.pre_synapses 0))
        (SynapseMap.disconnect_neuron mapC2 0 false)) =
      some (false, some [0], some []) := by decide

/-- C3: the claim fails on the source. On a fresh, empty `SynapseMap`,
`add_neuron 0` hits the unguarded `self._pre_synapses[neuron_id]` read and
raises `KeyError` instead of creating the empty lists. -/
theorem add_neuron_unregistered_raises :
    SynapseMap.add_neuron (SynapseMap.mk [] [] []) 0 = none := rfl

/-- C4 counterexample: the claim ("fails with `InvalidEndpoint` and leaves the
graph unchanged when an endpoint is unregistered") is false on the source: on
an empty map, where neither endpoint `0` nor `1` is registered, creating the
synapse `0 → 1` changes the graph — the record is stored and both endpoint
lists are created. -/
theorem create_synapse_unregistered_changes_graph :
    (SynapseMap.create_synapse (SynapseMap.mk [] [] []) (Synapse.mk 0 0 1 1 0)).synapses ≠
        ([] : List (ℕ × Synapse)) ∧
      dlookup (SynapseMap.create_synapse (SynapseMap.mk [] [] [])
        (Synapse.mk 0 0 1 1 0)).pre_synapses 0 = some [0] :=
  ⟨by simp [SynapseMap.create_synapse, dinsert], rfl⟩

/-- C4 amended: `SynapseMap.create_synapse` performs no registration check and
never fails: for every map and synapse record it stores the record under its
id and appends the id to the source's outgoing list and the target's incoming
list, creating either list if absent. -/
theorem create_synapse_stores_and_appends (m : SynapseMap) (s : Synapse) :
    dlookup (m.create_synapse s).synapses s.id = some s ∧
      dlookup (m.create_synapse s).pre_synapses s.pre_id =
        some ((dlookup m.pre_synapses s.pre_id).getD [] ++ [s.id]) ∧
      dlookup (m.create_synapse s).post_synapses s.post_id =
        some ((dlookup m.post_synapses s.post_id).getD [] ++ [s.id]) := by
  refine ⟨?_, ?_, ?_⟩
  · simp [SynapseMap.create_synapse, dlookup_dinsert]
  · simp [SynapseMap.create_synapse, dlookup_setdefaultAppend]
  · simp [SynapseMap.create_synapse, dlookup_setdefaultAppend]

/-! ### Buffer and scheduling lemmas -/

theorem eq_none_of_isSome_false {α : Type} {o : Option α} (h : o.isSome = false) : o = none := by
  cases o
  · rfl
  · simp at h

theorem mem_bucket_setdefaultAppend_old {buf : List (ℝ × List Input)} {t : ℝ} {v : Input}
    {t' : ℝ} {e : Input} (h : e ∈ bucket buf t') :
    e ∈ bucket (setdefaultAppend buf t v) t' := by
  unfold bucket at h ⊢
  rw [dlookup_setdefaultAppend]
  by_cases h1 : t' = t
  · subst h1
    simp only [if_pos rfl, Option.getD_some]
    exact List.mem_append_left _ h
  · simp [h1, h]

theorem mem_bucket_setdefaultAppend_self (buf : List (ℝ × List Input)) (t : ℝ) (v : Input) :
    v ∈ bucket (setdefaultAppend buf t v) t := by
  unfold bucket
  rw [dlookup_setdefaultAppend]
  simp

theorem mem_bucket_setdefaultAppend_cases {buf : List (ℝ × List Input)} {t : ℝ} {v : Input}
    {t' : ℝ} {e : Input} (h : e ∈ bucket (setdefaultAppend buf t v) t') :
    e ∈ bucket buf t' ∨ (e = v ∧ t' = t) := by
  unfold bucket at h ⊢
  rw [dlookup_setdefaultAppend] at h
  by_cases h1 : t' = t
  · subst h1
    simp only [if_pos rfl, Option.getD_some] at h
    rcases List.mem_append.mp h with h2 | h2
    · exact Or.inl h2
    · exact Or.inr ⟨List.mem_singleton.mp h2, rfl⟩
  · rw [if_neg h1] at h
    exact Or.inl h

theorem mem_bucket_derase {buf : List (ℝ × List Input)} {t t' : ℝ} {e : Input}
    (h : e ∈ bucket (derase buf t) t') : e ∈ bucket buf t' := by
  unfold bucket at h ⊢
  rw [dlookup_derase] at h
  by_cases h1 : t' = t
  · rw [if_pos h1] at h
    simp at h
  · rw [if_neg h1] at h
    exact h

theorem bucket_mapFilter (buf : List (ℝ × List Input)) (p : Input → Bool) (t : ℝ) :
    bucket (buf.map (fun q => (q.1, q.2.filter p))) t = (bucket buf t).filter p := by
  unfold bucket
  rw [dlookup_mapValues]
  cases dlookup buf t <;> simp

theorem enqueueAll_spec (time : ℝ) (syns : List BSynapse) :
    ∀ b : Brain,
      (enqueueAll time b syns).1.neurons_by_id = b.neurons_by_id ∧
      (enqueueAll time b syns).1.connections = b.connections ∧
      (enqueueAll time b syns).1.time = b.time ∧
      (∀ t e, e ∈ bucket b.input_buffer t →
        e ∈ bucket (enqueueAll time b syns).1.input_buffer t) ∧
      (∀ t e, e ∈ bucket (enqueueAll time b syns).1.input_buffer t →
        e ∈ bucket b.input_buffer t ∨
          ∃ s, s ∈ syns ∧ e = Input.mk s.target_id s.weight ∧ t = time + s.delay) ∧
      (∀ p, p ∈ (enqueueAll time b syns).2 →
        p.2 ∈ bucket (enqueueAll time b syns).1.input_buffer p.1) := by
  induction syns with
  | nil =>
    intro b
    refine ⟨rfl, rfl, rfl, ?_, ?_, ?_⟩
    · intro t e h
      exact h
    · intro t e h
      exact Or.inl h
    · intro p hp
      simp [enqueueAll] at hp
  | cons syn rest ih =>
    intro b
    obtain ⟨ih1, ih2, ih3, ih4, ih5, ih6⟩ :=
      ih (addInput b (time + syn.delay) (Input.mk syn.target_id syn.weight))
    refine ⟨ih1, ih2, ih3, ?_, ?_, ?_⟩
    · intro t e h
      exact ih4 t e (mem_bucket_setdefaultAppend_old h)
    · intro t e h
      rcases ih5 t e h with h1 | ⟨s, hs, he, ht⟩
      · rcases mem_bucket_setdefaultAppend_cases h1 with h2 | ⟨h2, h3⟩
        · exact Or.inl h2
        · exact Or.inr ⟨syn, List.mem_cons_self _ _, h2, h3⟩
      · exact Or.inr ⟨s, List.mem_cons_of_mem _ hs, he, ht⟩
    · intro p hp
      rcases List.mem_cons.mp hp with h1 | h1
      · subst h1
        exact ih4 _ _ (mem_bucket_setdefaultAppend_self _ _ _)
      · exact ih6 p h1

theorem propagateFrom_spec (b : Brain) (nid : ℕ) :
    (propagateFrom b nid).1.neurons_by_id = b.neurons_by_id ∧
    (propagateFrom b nid).1.connections = b.connections ∧
    (propagateFrom b nid).1.time = b.time ∧
    (∀ t e, e ∈ bucket b.input_buffer t →
      e ∈ bucket (propagateFrom b nid).1.input_buffer t) ∧
    (∀ t e, e ∈ bucket (propagateFrom b nid).1.input_buffer t →
      e ∈ bucket b.input_buffer t ∨
        ∃ s, s ∈ (dlookup b.connections nid).getD [] ∧ e = Input.mk s.target_id s.weight) ∧
    (∀ p, p ∈ (propagateFrom b nid).2 →
      p.2 ∈ bucket (propagateFrom b nid).1.input_buffer p.1) := by
  obtain ⟨h1, h2, h3, h4, h5, h6⟩ :=
    enqueueAll_spec b.time ((dlookup b.connections nid).getD []) b
  refine ⟨h1, h2, h3, h4, ?_, h6⟩
  intro t e he
  rcases h5 t e he with hl | ⟨s, hs, he2, _⟩
  · exact Or.inl hl
  · exact Or.inr ⟨s, hs, he2⟩

theorem processInput_none {b : Brain} {i : Input}
    (h : dlookup b.neurons_by_id i.neuron_id = none) : processInput b i = .error () := by
  unfold processInput
  rw [h]

theorem processInput_eq_of_some {b : Brain} {i : Input} {n : AsyncNeuron}
    (hn : dlookup b.neurons_by_id i.neuron_id = some n) :
    processInput b i =
      (if (receiveInput n b.time i.strength).2 then
        .ok (propagateFrom
          { b with neurons_by_id :=
              dinsert b.neurons_by_id i.neuron_id (receiveInput n b.time i.strength).1 }
          (receiveInput n b.time i.strength).1.id)
      else
        .ok ({ b with neurons_by_id :=
                 dinsert b.neurons_by_id i.neuron_id (receiveInput n b.time i.strength).1 },
          [])) := by
  unfold processInput
  rw [hn]

theorem processInput_isSome_ok {b : Brain} {i : Input}
    (h : (dlookup b.neurons_by_id i.neuron_id).isSome = true) :
    ∃ b1 ps1, processInput b i = .ok (b1, ps1) := by
  obtain ⟨n, hn⟩ := Option.isSome_iff_exists.mp h
  rw [processInput_eq_of_some hn]
  by_cases hf : (receiveInput n b.time i.strength).2 = true
  · rw [if_pos hf]
    exact ⟨_, _, rfl⟩
  · rw [if_neg hf]
    exact ⟨_, _, rfl⟩

theorem processInput_spec {b : Brain} {i : Input} {b' : Brain} {ps : List (ℝ × Input)}
    (h : processInput b i = .ok (b', ps)) :
    b'.connections = b.connections ∧
    b'.time = b.time ∧
    (∀ k, (dlookup b'.neurons_by_id k).isSome = (dlookup b.neurons_by_id k).isSome) ∧
    (∀ t e, e ∈ bucket b.input_buffer t → e ∈ bucket b'.input_buffer t) ∧
    (∀ t e, e ∈ bucket b'.input_buffer t → e ∈ bucket b.input_buffer t ∨
      ∃ k s, s ∈ (dlookup b.connections k).getD [] ∧ e = Input.mk s.target_id s.weight) ∧
    (∀ p, p ∈ ps → p.2 ∈ bucket b'.input_buffer p.1) := by
  cases hn : dlookup b.neurons_by_id i.neuron_id with
  | none =>
    rw [processInput_none hn] at h
    exact absurd h (by simp)
  | some n =>
    rw [processInput_eq_of_some hn] at h
    by_cases hf : (receiveInput n b.time i.strength).2 = true
    · rw [if_pos hf] at h
      injection h with h2
      obtain ⟨f1, f2, f3, f4, f5, f6⟩ := propagateFrom_spec
        { b with neurons_by_id :=
            dinsert b.neurons_by_id i.neuron_id (receiveInput n b.time i.strength).1 }
        (receiveInput n b.time i.strength).1.id
      have hb' : (propagateFrom
          { b with neurons_by_id :=
              dinsert b.neurons_by_id i.neuron_id (receiveInput n b.time i.strength).1 }
          (receiveInput n b.time i.strength).1.id).1 = b' := by rw [h2]
      have hps : (propagateFrom
          { b with neurons_by_id :=
              dinsert b.neurons_by_id i.neuron_id (receiveInput n b.time i.strength).1 }
          (receiveInput n b.time i.strength).1.id).2 = ps := by rw [h2]
      rw [hb'] at f1 f2 f3 f4 f5 f6
      rw [hps] at f6
      refine ⟨f2, f3, ?_, f4, ?_, f6⟩
      · intro k
        rw [f1, dlookup_dinsert]
        by_cases hk : k = i.neuron_id
        · rw [if_pos hk, hk, hn]
          rfl
        · rw [if_neg hk]
      · intro t e he
        rcases f5 t e he with hl | ⟨s, hs, he2⟩
        · exact Or.inl hl
        · exact Or.inr ⟨(receiveInput n b.time i.strength).1.id, s, hs, he2⟩
    · rw [if_neg hf] at h
      injection h with h2
      injection h2 with h3 h4
      subst h3
      subst h4
      refine ⟨rfl, rfl, ?_, ?_, ?_, ?_⟩
      · intro k
        show (dlookup (dinsert b.neurons_by_id i.neuron_id
          (receiveInput n b.time i.strength).1) k).isSome = _
        rw [dlookup_dinsert]
        by_cases hk : k = i.neuron_id
        · rw [if_pos hk, hk, hn]
          rfl
        · rw [if_neg hk]
      · intro t e he
        exact he
      · intro t e he
        exact Or.inl he
      · intro p hp
        simp at hp

theorem processEvents_nil (b : Brain) : processEvents b [] = .ok (b, [], []) := rfl

theorem processEvents_cons_ok {b b1 : Brain} {inp : Input} {rest : List Input}
    {ps1 : List (ℝ × Input)} (hp : processInput b inp = .ok (b1, ps1)) :
    processEvents b (inp :: rest) =
      match processEvents b1 rest with
      | .error e => .error e
      | .ok (b2, ds, ps) => .ok (b2, inp :: ds, ps1 ++ ps) := by
  simp only [processEvents]
  rw [hp]

theorem processEvents_cons_error {b : Brain} {inp : Input} {rest : List Input}
    (hp : processInput b inp = .error ()) :
    processEvents b (inp :: rest) = .error () := by
  unfold processEvents
  rw [hp]

theorem processEvents_deliveries (evs : List Input) :
    ∀ b b2 : Brain, ∀ ds : List Input, ∀ ps : List (ℝ × Input),
      processEvents b evs = .ok (b2, ds, ps) →
      ds = evs ∧
      (∀ t e, e ∈ bucket b.input_buffer t → e ∈ bucket b2.input_buffer t) ∧
      (∀ p, p ∈ ps → p.2 ∈ bucket b2.input_buffer p.1) := by
  induction evs with
  | nil =>
    intro b b2 ds ps h
    rw [processEvents_nil] at h
    injection h with h2
    injection h2 with h3 h4
    injection h4 with h5 h6
    subst h3
    subst h5
    subst h6
    exact ⟨rfl, fun t e he => he, fun p hp => absurd hp (List.not_mem_nil p)⟩
  | cons inp rest ih =>
    intro b b2 ds ps h
    cases hp : processInput b inp with
    | error e =>
      cases e
      rw [processEvents_cons_error hp] at h
      exact absurd h (by simp)
    | ok pr =>
      obtain ⟨b1, ps1⟩ := pr
      rw [processEvents_cons_ok hp] at h
      cases he : processEvents b1 rest with
      | error e2 =>
        rw [he] at h
        exact absurd h (by simp)
      | ok pr2 =>
        obtain ⟨b2x, ds2, ps2⟩ := pr2
        rw [he] at h
        injection h with h2
        injection h2 with h3 h4
        injection h4 with h5 h6
        subst h3
        subst h5
        subst h6
        obtain ⟨hds, hmono, hprod⟩ := ih b1 b2x ds2 ps2 he
        obtain ⟨_, _, _, pmono, _, pprod⟩ := processInput_spec hp
        refine ⟨by rw [hds], ?_, ?_⟩
        · intro t e hee
          exact hmono t e (pmono t e hee)
        · intro p hp2
          rcases List.mem_append.mp hp2 with h7 | h7
          · exact hmono _ _ (pprod p h7)
          · exact hprod p h7

theorem processEvents_error_of_missing (evs : List Input) :
    ∀ b : Brain, (∃ i, i ∈ evs ∧ dlookup b.neurons_by_id i.neuron_id = none) →
      processEvents b evs = .error () := by
  induction evs with
  | nil =>
    rintro b ⟨i, hi, _⟩
    exact absurd hi (List.not_mem_nil i)
  | cons inp rest ih =>
    rintro b ⟨i, hi, hnone⟩
    rcases List.mem_cons.mp hi with h1 | h1
    · subst h1
      exact processEvents_cons_error (processInput_none hnone)
    · by_cases hs : (dlookup b.neurons_by_id inp.neuron_id).isSome = true
      · obtain ⟨b1, ps1, hp⟩ := processInput_isSome_ok hs
        obtain ⟨_, _, hsome2, _, _, _⟩ := processInput_spec hp
        have hnone1 : dlookup b1.neurons_by_id i.neuron_id = none := by
          apply eq_none_of_isSome_false
          rw [hsome2, hnone]
          rfl
        rw [processEvents_cons_ok hp, ih b1 ⟨i, h1, hnone1⟩]
      · have h2 : dlookup b.neurons_by_id inp.neuron_id = none :=
          eq_none_of_isSome_false (by simpa using hs)
        exact processEvents_cons_error (processInput_none h2)

theorem processEvents_safe (neuron_id : ℕ) (evs : List Input) :
    ∀ b : Brain, WF b → NoRef b neuron_id →
      (∀ i, i ∈ evs →
        (dlookup b.neurons_by_id i.neuron_id).isSome = true ∧ i.neuron_id ≠ neuron_id) →
      ∃ b2 ds ps, processEvents b evs = .ok (b2, ds, ps) ∧ WF b2 ∧ NoRef b2 neuron_id ∧
        ∀ i, i ∈ ds → i.neuron_id ≠ neuron_id := by
  induction evs with
  | nil =>
    intro b hWF hNR _
    exact ⟨b, [], [], rfl, hWF, hNR, fun i hi => absurd hi (List.not_mem_nil i)⟩
  | cons inp rest ih =>
    intro b hWF hNR hev
    obtain ⟨hsome, hne⟩ := hev inp (List.mem_cons_self _ _)
    obtain ⟨b1, ps1, hp⟩ := processInput_isSome_ok hsome
    obtain ⟨pconn, ptime, psome, pmono, pprov, pprod⟩ := processInput_spec hp
    have hWF1 : WF b1 := by
      constructor
      · intro t i hi
        rcases pprov t i hi with h1 | ⟨k, s, hs, he⟩
        · rw [psome]
          exact hWF.1 t i h1
        · rw [psome, he]
          exact hWF.2 k s hs
      · intro k s hs
        rw [pconn] at hs
        rw [psome]
        exact hWF.2 k s hs
    have hNR1 : NoRef b1 neuron_id := by
      refine ⟨?_, ?_, ?_⟩
      · rw [psome]
        exact hNR.1
      · intro t i hi
        rcases pprov t i hi with h1 | ⟨k, s, hs, he⟩
        · exact hNR.2.1 t i h1
        · rw [he]
          exact hNR.2.2 k s hs
      · intro k s hs
        rw [pconn] at hs
        exact hNR.2.2 k s hs
    have hev1 : ∀ i, i ∈ rest →
        (dlookup b1.neurons_by_id i.neuron_id).isSome = true ∧ i.neuron_id ≠ neuron_id := by
      intro i hi
      obtain ⟨hi1, hi2⟩ := hev i (List.mem_cons_of_mem _ hi)
      refine ⟨?_, hi2⟩
      rw [psome]
      exact hi1
    obtain ⟨b2, ds, ps, he2, hWF2, hNR2, hds⟩ := ih b1 hWF1 hNR1 hev1
    refine ⟨b2, inp :: ds, ps1 ++ ps, ?_, hWF2, hNR2, ?_⟩
    · rw [processEvents_cons_ok hp, he2]
    · intro i hi
      rcases List.mem_cons.mp hi with h1 | h1
      · rw [h1]
        exact hne
      · exact hds i h1

theorem propagate_nil {b : Brain} (h : b.input_buffer = []) : propagate b = .ok (b, [], []) := by
  unfold propagate
  rw [h]
  rfl

theorem propagate_eq {b : Brain} (h : b.input_buffer ≠ []) :
    propagate b = processEvents
      { b with time := minKey b.input_buffer,
               input_buffer := derase b.input_buffer (minKey b.input_buffer) }
      (bucket b.input_buffer (minKey b.input_buffer)) := by
  have h2 : ¬(b.input_buffer.isEmpty = true) := by
    cases hb : b.input_buffer
    · exact absurd hb h
    · simp
  unfold propagate
  rw [if_neg h2]

theorem propagate_safe (neuron_id : ℕ) (b : Brain) (hWF : WF b) (hNR : NoRef b neuron_id) :
    ∃ b' ds ps, propagate b = .ok (b', ds, ps) ∧ WF b' ∧ NoRef b' neuron_id ∧
      ∀ i, i ∈ ds → i.neuron_id ≠ neuron_id := by
  by_cases hb : b.input_buffer = []
  · exact ⟨b, [], [], propagate_nil hb, hWF, hNR, fun i hi => absurd hi (List.not_mem_nil i)⟩
  · have hWFp : WF { b with time := minKey b.input_buffer,
                            input_buffer := derase b.input_buffer (minKey b.input_buffer) } := by
      constructor
      · intro t i hi
        exact hWF.1 t i (mem_bucket_derase hi)
      · intro k s hs
        exact hWF.2 k s hs
    have hNRp : NoRef { b with time := minKey b.input_buffer,
                               input_buffer := derase b.input_buffer (minKey b.input_buffer) }
        neuron_id := by
      refine ⟨hNR.1, ?_, ?_⟩
      · intro t i hi
        exact hNR.2.1 t i (mem_bucket_derase hi)
      · intro k s hs
        exact hNR.2.2 k s hs
    have hevp : ∀ i, i ∈ bucket b.input_buffer (minKey b.input_buffer) →
        (dlookup ({ b with time := minKey b.input_buffer,
                           input_buffer := derase b.input_buffer (minKey b.input_buffer) } :
              Brain).neurons_by_id i.neuron_id).isSome = true ∧
          i.neuron_id ≠ neuron_id := by
      intro i hi
      exact ⟨hWF.1 _ i hi, hNR.2.1 _ i hi⟩
    obtain ⟨b2, ds, ps, he, hWF2, hNR2, hds⟩ :=
      processEvents_safe neuron_id (bucket b.input_buffer (minKey b.input_buffer)) _
        hWFp hNRp hevp
    refine ⟨b2, ds, ps, ?_, hWF2, hNR2, hds⟩
    rw [propagate_eq hb]
    exact he

theorem runSteps_safe (neuron_id : ℕ) (k : ℕ) :
    ∀ b : Brain, WF b → NoRef b neuron_id →
      ∃ b2 ds, runSteps k b = .ok (b2, ds) ∧ WF b2 ∧ NoRef b2 neuron_id ∧
        ∀ i, i ∈ ds → i.neuron_id ≠ neuron_id := by
  induction k with
  | zero =>
    intro b hWF hNR
    exact ⟨b, [], rfl, hWF, hNR, fun i hi => absurd hi (List.not_mem_nil i)⟩
  | succ k ih =>
    intro b hWF hNR
    obtain ⟨b1, ds, ps, hp, hWF1, hNR1, hds⟩ := propagate_safe neuron_id b hWF hNR
    obtain ⟨b2, ds2, hr, hWF2, hNR2, hds2⟩ := ih b1 hWF1 hNR1
    refine ⟨b2, ds ++ ds2, ?_, hWF2, hNR2, ?_⟩
    · simp [runSteps, hp, hr]
    · intro i hi
      rcases List.mem_append.mp hi with h1 | h1
      · exact hds i h1
      · exact hds2 i h1

theorem deleteNeuron_fields (b : Brain) (neuron_id : ℕ) (hreg : neuron_id ∈ b.neurons) :
    (deleteNeuron b neuron_id).neurons_by_id = derase b.neurons_by_id neuron_id ∧
    (deleteNeuron b neuron_id).input_buffer =
      b.input_buffer.map (fun p => (p.1, p.2.filter (fun i => i.neuron_id ≠ neuron_id))) ∧
    (deleteNeuron b neuron_id).connections =
      (derase b.connections neuron_id).map
        (fun p => (p.1, p.2.filter (fun s => s.target_id ≠ neuron_id))) := by
  unfold deleteNeuron disconnectNeuron
  rw [if_pos hreg]
  exact ⟨rfl, rfl, rfl⟩

theorem deleteNeuron_establishes (b : Brain) (neuron_id : ℕ) (hWF : WF b)
    (hreg : neuron_id ∈ b.neurons) :
    WF (deleteNeuron b neuron_id) ∧ NoRef (deleteNeuron b neuron_id) neuron_id := by
  obtain ⟨hn, hb, hc⟩ := deleteNeuron_fields b neuron_id hreg
  have hbucket : ∀ t, bucket (deleteNeuron b neuron_id).input_buffer t =
      (bucket b.input_buffer t).filter (fun i => i.neuron_id ≠ neuron_id) := by
    intro t
    rw [hb, bucket_mapFilter]
  have hconn : ∀ k, (dlookup (deleteNeuron b neuron_id).connections k).getD [] =
      if k = neuron_id then ([] : List BSynapse)
      else ((dlookup b.connections k).getD []).filter (fun s => s.target_id ≠ neuron_id) := by
    intro k
    rw [hc, dlookup_mapValues, dlookup_derase]
    by_cases hk : k = neuron_id
    · rw [if_pos hk, if_pos hk]
      rfl
    · rw [if_neg hk, if_neg hk]
      cases dlookup b.connections k <;> rfl
  constructor
  · constructor
    · intro t i hi
      rw [hbucket t, List.mem_filter] at hi
      obtain ⟨hi1, hi2⟩ := hi
      have hne : i.neuron_id ≠ neuron_id := by simpa using hi2
      rw [hn, dlookup_derase, if_neg hne]
      exact hWF.1 t i hi1
    · intro k s hs
      rw [hconn k] at hs
      by_cases hk : k = neuron_id
      · rw [if_pos hk] at hs
        exact absurd hs (List.not_mem_nil s)
      · rw [if_neg hk, List.mem_filter] at hs
        obtain ⟨hs1, hs2⟩ := hs
        have hne : s.target_id ≠ neuron_id := by simpa using hs2
        rw [hn, dlookup_derase, if_neg hne]
        exact hWF.2 k s hs1
  · refine ⟨?_, ?_, ?_⟩
    · rw [hn, dlookup_derase, if_pos rfl]
      rfl
    · intro t i hi
      rw [hbucket t, List.mem_filter] at hi
      simpa using hi.2
    · intro k s hs
      rw [hconn k] at hs
      by_cases hk : k = neuron_id
      · rw [if_pos hk] at hs
        exact absurd hs (List.not_mem_nil s)
      · rw [if_neg hk, List.mem_filter] at hs
        simpa using hs.2

/-! ### Claims about the scheduler -/

/-- C5: one `propagate` step delivers exactly the bucket popped at the minimum
pending timestamp — events scheduled during the step by firing neurons via
their outgoing synapses are never delivered within that same step — and every
event scheduled during the step sits in the post-state buffer at its arrival
time (even when that arrival time equals the just-processed timestamp, as with
a zero synapse delay), becoming eligible only from a later step. -/
theorem propagate_delivers_only_popped_bucket (b b' : Brain) (ds : List Input)
    (ps : List (ℝ × Input)) (hne : b.input_buffer ≠ [])
    (hok : propagate b = .ok (b', ds, ps)) :
    ds = bucket b.input_buffer (minKey b.input_buffer) ∧
      ∀ p, p ∈ ps → p.2 ∈ bucket b'.input_buffer p.1 := by
  rw [propagate_eq hne] at hok
  obtain ⟨hds, _, hprod⟩ := processEvents_deliveries _ _ _ _ _ hok
  exact ⟨hds, hprod⟩

theorem propagate_delivers_only_popped_bucket_witness :
    (brainW5.input_buffer ≠ [] ∧ propagate brainW5 = .ok (brainW5x, [], [])) ∧
      (([] : List Input) = bucket brainW5.input_buffer (minKey brainW5.input_buffer) ∧
        ∀ p, p ∈ ([] : List (ℝ × Input)) → p.2 ∈ bucket brainW5x.input_buffer p.1) := by
  have hne : brainW5.input_buffer ≠ [] := by simp [brainW5]
  have hmin : minKey brainW5.input_buffer = 0 := rfl
  have hbuck : bucket brainW5.input_buffer 0 = [] := by
    simp [brainW5, bucket, dlookup]
  have hder : derase brainW5.input_buffer 0 = [] := by
    simp [brainW5, derase]
  have hok : propagate brainW5 = .ok (brainW5x, [], []) := by
    rw [propagate_eq hne, hmin, hbuck, hder]
    rfl
  exact ⟨⟨hne, hok⟩, propagate_delivers_only_popped_bucket brainW5 brainW5x [] [] hne hok⟩

/-- C6: deleting a registered neuron removes its record, disconnects every
synapse targeting it, and purges every buffered event addressed to it from
every timestamp bucket; afterwards any number of scheduler steps runs without
error and never delivers an event to the deleted id. The starting brain is
assumed well-formed (every buffered event and synapse targets an existing
neuron): without that, a step could already fail on an unrelated dangling
event, exactly as the `add_input` claim shows. -/
theorem delete_neuron_purges_and_steps_stay_safe (b : Brain) (neuron_id k : ℕ)
    (hWF : WF b) (hreg : neuron_id ∈ b.neurons) :
    NoRef (deleteNeuron b neuron_id) neuron_id ∧
      ∃ b2 ds, runSteps k (deleteNeuron b neuron_id) = .ok (b2, ds) ∧
        ∀ i, i ∈ ds → i.neuron_id ≠ neuron_id := by
  obtain ⟨hWFd, hNRd⟩ := deleteNeuron_establishes b neuron_id hWF hreg
  obtain ⟨b2, ds, hr, _, _, hds⟩ :=
    runSteps_safe neuron_id k (deleteNeuron b neuron_id) hWFd hNRd
  exact ⟨hNRd, b2, ds, hr, hds⟩

theorem delete_neuron_purges_and_steps_stay_safe_witness :
    (WF brainW6 ∧ 7 ∈ brainW6.neurons) ∧
      (NoRef (deleteNeuron brainW6 7) 7 ∧
        ∃ b2 ds, runSteps 1 (deleteNeuron brainW6 7) = .ok (b2, ds) ∧
          ∀ i, i ∈ ds → i.neuron_id ≠ 7) := by
  have hWF : WF brainW6 := by
    constructor
    · intro t i hi
      simp [brainW6, bucket, dlookup] at hi
    · intro k s hs
      by_cases hk : k = 7
      · subst hk
        simp [brainW6, dlookup] at hs
      · simp [brainW6, dlookup, hk] at hs
  have hreg : 7 ∈ brainW6.neurons := by simp [brainW6]
  exact ⟨⟨hWF, hreg⟩, delete_neuron_purges_and_steps_stay_safe brainW6 7 1 hWF hreg⟩

/-- C10: `add_input` performs no existence check — an event addressed to a
neuron id that has no record is accepted into the buffer — and when a step
pops the bucket containing such an event, delivery fails with a lookup error
(the raw `neurons_by_id[...]` access) instead of skipping the event, in
contrast to the purge that protects deleted neurons. -/
theorem add_input_unchecked_and_orphan_delivery_raises (b : Brain) (t : ℝ) (inp : Input)
    (hne : b.input_buffer ≠ [])
    (hmem : inp ∈ bucket b.input_buffer (minKey b.input_buffer))
    (hmiss : dlookup b.neurons_by_id inp.neuron_id = none) :
    inp ∈ bucket (addInput b t inp).input_buffer t ∧ propagate b = .error () := by
  constructor
  · exact mem_bucket_setdefaultAppend_self _ _ _
  · rw [propagate_eq hne]
    exact processEvents_error_of_missing _ _ ⟨inp, hmem, hmiss⟩

theorem add_input_unchecked_and_orphan_delivery_raises_witness :
    (brainW10.input_buffer ≠ [] ∧
        Input.mk 5 1 ∈ bucket brainW10.input_buffer (minKey brainW10.input_buffer) ∧
        dlookup brainW10.neurons_by_id (Input.mk 5 1).neuron_id = none) ∧
      (Input.mk 5 1 ∈ bucket (addInput brainW10 2 (Input.mk 5 1)).input_buffer 2 ∧
        propagate brainW10 = .error ()) := by
  have hne : brainW10.input_buffer ≠ [] := by simp [brainW10]
  have hmem : Input.mk 5 1 ∈ bucket brainW10.input_buffer (minKey brainW10.input_buffer) := by
    have hmin : minKey brainW10.input_buffer = 0 := rfl
    rw [hmin]
    simp [brainW10, bucket, dlookup]
  have hmiss : dlookup brainW10.neurons_by_id (Input.mk 5 1).neuron_id = none := rfl
  exact ⟨⟨hne, hmem, hmiss⟩,
    add_input_unchecked_and_orphan_delivery_raises brainW10 2 (Input.mk 5 1) hne hmem hmiss⟩
